import Mathlib

/-!
Verification of the core of `bad-apple-particle` (src/src/main.rs): a
frame-streaming playback buffer and a particle-field simulation.

Shallow embedding conventions:
* `f32`/`f64` values (particle positions, stopwatch seconds) are modelled as `ℚ`;
  the color red channel, which passes through `exp`, is modelled as `ℝ`.
* A Bevy `Handle<Image>` returned by `server.load("frames/out{idx:04}.png")` is
  identified with the frame index `idx : ℕ` it was requested for (the default
  handle installed at startup is `0`).
* `usize` is `ℕ` (subtraction is truncated, as in the code's release profile).
* The thread-local RNG is an injected source of offsets.
-/

namespace BadApple

/-- `const FRAMES: usize = 6572`. -/
def FRAMES : Nat := 6572

/-- `const FPS: f64 = 30.0`. -/
def FPS : ℚ := 30

/-- `const WIDTH: u32 = 480`. -/
def WIDTH : Nat := 480

/-- `const HEIGHT: u32 = 360`. -/
def HEIGHT : Nat := 360

/-- The literal `256` in `load_frames` (the prefetch depth). -/
def PREFETCH_DEPTH : Nat := 256

/-- The `Player` component together with the sprite's `Handle<Image>` it is
queried with: `buffer: VecDeque<Handle<Image>>` (front = head of the list),
`play_index`, `load_index`, `time: Stopwatch` (elapsed seconds), and `image`,
the currently displayed frame handle. -/
@[ext]
structure Player where
  buffer : List Nat
  play_index : Nat
  load_index : Nat
  time : ℚ
  image : Nat
  deriving Repr, DecidableEq

/-- The state spawned by `startup`: empty buffer, `play_index = 0`,
`load_index = 1`, a fresh stopwatch, and the default image handle. -/
def startupPlayer : Player :=
  { buffer := [], play_index := 0, load_index := 1, time := 0, image := 0 }

/-- `current_idx` as computed in `update_sprite`:
`(elapsed / (1.0 / FPS)).floor() as usize`. -/
def current_idx_of (time : ℚ) : Nat := (⌊time / (1 / FPS)⌋).toNat

/-- `update_sprite`: ticks the stopwatch by `dt`, computes
`current_idx = floor(elapsed / (1/FPS))` and, if `play_index < current_idx`,
pops the front of the buffer (when non-empty), installs it as the displayed
image and increments `play_index`. -/
def update_sprite (dt : ℚ) (s : Player) : Player :=
  if s.play_index < current_idx_of (s.time + dt) then
    match s.buffer with
    | new_frame :: rest =>
        { s with time := s.time + dt, image := new_frame, buffer := rest,
                 play_index := s.play_index + 1 }
    | [] => { s with time := s.time + dt }
  else
    { s with time := s.time + dt }

/-- One iteration body of the `while` loop in `load_frames`: request the frame
at `load_index` (the handle is identified with the index) and push it at the
back of the buffer. -/
def push_frame (s : Player) : Player :=
  { s with buffer := s.buffer ++ [s.load_index], load_index := s.load_index + 1 }

/-- The `while player.buffer.len() < 256` loop of `load_frames`, with explicit
fuel. Each iteration grows the buffer by one, so fuel `PREFETCH_DEPTH` always
reaches the loop's exit condition (`load_loop_fix` below). -/
def load_loop : Nat → Player → Player
  | 0, s => s
  | fuel + 1, s =>
      if s.buffer.length < PREFETCH_DEPTH then load_loop fuel (push_frame s) else s

/-- `load_frames`: returns immediately when `load_index >= FRAMES`, otherwise
runs the refill loop. Note the loop itself never re-checks `load_index`. -/
def load_frames (s : Player) : Player :=
  if s.load_index ≥ FRAMES then s else load_loop PREFETCH_DEPTH s

/-- One scheduler step of the playback buffer: either the `load_frames` system
runs, or the `update_sprite` system runs with some nonnegative frame delta.
(`update_sprite` is gated by `is_playing`; pausing only removes steps, which
nondeterminism already covers.) -/
inductive PlayerStep : Player → Player → Prop
  | load (s : Player) : PlayerStep s (load_frames s)
  | update (s : Player) (dt : ℚ) (h : 0 ≤ dt) : PlayerStep s (update_sprite dt s)

/-- Reachable playback-buffer states: startup state closed under steps. -/
inductive PlayerReach : Player → Prop
  | init : PlayerReach startupPlayer
  | step {s s' : Player} : PlayerReach s → PlayerStep s s' → PlayerReach s'

/-- Closed form of the refill loop when the fuel suffices: it appends the
handles `load_index, load_index+1, ...` until the buffer has
`PREFETCH_DEPTH` entries. -/
theorem load_loop_eq (fuel : Nat) (s : Player)
    (h : PREFETCH_DEPTH ≤ s.buffer.length + fuel) :
    load_loop fuel s =
      { s with
        buffer := s.buffer ++ List.range' s.load_index (PREFETCH_DEPTH - s.buffer.length),
        load_index := s.load_index + (PREFETCH_DEPTH - s.buffer.length) } := by
  induction fuel generalizing s with
  | zero =>
      simp only [load_loop]
      have h0 : PREFETCH_DEPTH - s.buffer.length = 0 := by omega
      rw [h0]
      simp
  | succ n ih =>
      simp only [load_loop]
      by_cases hlt : s.buffer.length < PREFETCH_DEPTH
      · rw [if_pos hlt, ih (push_frame s) (by simp [push_frame]; omega)]
        have hk : PREFETCH_DEPTH - s.buffer.length
            = (PREFETCH_DEPTH - (s.buffer.length + 1)) + 1 := by omega
        simp only [push_frame, Player.mk.injEq, List.length_append, List.length_cons,
          List.length_nil, List.length_singleton]
        refine ⟨?_, trivial, by omega, trivial, trivial⟩
        have h1 : s.buffer.length + (0 + 1) = s.buffer.length + 1 := by omega
        rw [h1, List.append_assoc, List.singleton_append, hk, List.range'_succ]
      · rw [if_neg hlt]
        have h0 : PREFETCH_DEPTH - s.buffer.length = 0 := by omega
        rw [h0]
        simp

/-- `load_frames`, in closed form (fuel `PREFETCH_DEPTH` always suffices since
each loop iteration grows the buffer by one). -/
theorem load_frames_eq (s : Player) :
    load_frames s =
      if FRAMES ≤ s.load_index then s
      else
        { s with
          buffer := s.buffer ++ List.range' s.load_index (PREFETCH_DEPTH - s.buffer.length),
          load_index := s.load_index + (PREFETCH_DEPTH - s.buffer.length) } := by
  unfold load_frames
  rcases le_or_lt FRAMES s.load_index with h | h
  · rw [if_pos h, if_pos h]
  · rw [if_neg (by omega), if_neg (by omega), load_loop_eq _ _ (by omega)]

/-- Case analysis of `update_sprite`: either only the stopwatch advances, or a
frame is additionally popped, displayed, and `play_index` incremented. -/
theorem update_sprite_cases (dt : ℚ) (s : Player) :
    update_sprite dt s = { s with time := s.time + dt } ∨
    (∃ f rest, s.buffer = f :: rest ∧
      s.play_index < current_idx_of (s.time + dt) ∧
      update_sprite dt s =
        { s with time := s.time + dt, image := f, buffer := rest,
                 play_index := s.play_index + 1 }) := by
  unfold update_sprite
  by_cases hp : s.play_index < current_idx_of (s.time + dt)
  · rw [if_pos hp]
    cases hb : s.buffer with
    | nil => exact Or.inl rfl
    | cons f rest => exact Or.inr ⟨f, rest, rfl, hp, rfl⟩
  · rw [if_neg hp]
    exact Or.inl rfl

/-- The inductive invariant of the playback buffer: the queue holds exactly the
frames `play_index+1, ..., load_index-1` (so its length is
`load_index - play_index - 1`), never more than `PREFETCH_DEPTH` of them, and
`load_index` is bounded by `FRAMES + PREFETCH_DEPTH - 1`. -/
def PlayerInv (s : Player) : Prop :=
  s.buffer.length + s.play_index + 1 = s.load_index ∧
  s.buffer.length ≤ PREFETCH_DEPTH ∧
  s.load_index ≤ FRAMES + PREFETCH_DEPTH - 1

theorem playerInv_init : PlayerInv startupPlayer := by
  refine ⟨?_, ?_, ?_⟩ <;> simp [startupPlayer, PREFETCH_DEPTH, FRAMES]

theorem playerInv_load (s : Player) (h : PlayerInv s) : PlayerInv (load_frames s) := by
  obtain ⟨h1, h2, h3⟩ := h
  rw [load_frames_eq]
  split
  · exact ⟨h1, h2, h3⟩
  · refine ⟨?_, ?_, ?_⟩ <;> simp only [List.length_append, List.length_range'] <;> omega

theorem playerInv_update (dt : ℚ) (s : Player) (h : PlayerInv s) :
    PlayerInv (update_sprite dt s) := by
  obtain ⟨h1, h2, h3⟩ := h
  rcases update_sprite_cases dt s with heq | ⟨f, rest, hb, _, heq⟩
  · rw [heq]; exact ⟨h1, h2, h3⟩
  · rw [heq]
    have : s.buffer.length = rest.length + 1 := by rw [hb]; simp
    refine ⟨?_, ?_, ?_⟩ <;> simp only [] <;> omega

/-- Every reachable playback-buffer state satisfies the invariant. -/
theorem playerInv_reach (s : Player) (h : PlayerReach s) : PlayerInv s := by
  induction h with
  | init => exact playerInv_init
  | step _ hstep ih =>
      cases hstep with
      | load => exact playerInv_load _ ih
      | update dt _ => exact playerInv_update dt _ ih

/-- With the stopwatch at `1000` s, `current_idx` is `30000`. -/
theorem current_idx_of_1000 : current_idx_of 1000 = 30000 := by
  unfold current_idx_of
  rw [show (1000 : ℚ) / (1 / FPS) = ((30000 : ℤ) : ℚ) by norm_num [FPS]]
  rw [Int.floor_intCast]
  rfl

theorem current_idx_of_1000_add_zero : current_idx_of (1000 + 0) = 30000 := by
  rw [show ((1000 : ℚ) + 0) = 1000 by norm_num]
  exact current_idx_of_1000

/-- When a frame is due (`play_index < current_idx`) and the buffer is
non-empty, `update_sprite` pops the front frame and displays it. -/
theorem update_sprite_pop (dt : ℚ) (s : Player) (f : Nat) (rest : List Nat)
    (hb : s.buffer = f :: rest) (hp : s.play_index < current_idx_of (s.time + dt)) :
    update_sprite dt s =
      { s with time := s.time + dt, image := f, buffer := rest,
               play_index := s.play_index + 1 } := by
  unfold update_sprite
  rw [if_pos hp, hb]

/-- With an empty buffer, `update_sprite` only ticks the stopwatch. -/
theorem update_sprite_nil (dt : ℚ) (s : Player) (hb : s.buffer = []) :
    update_sprite dt s = { s with time := s.time + dt } := by
  unfold update_sprite
  split
  · rw [hb]
  · rfl

/-- Draining: from a state whose buffer holds `n` consecutive frame handles
starting at `a` and whose stopwatch reads `1000` s, `n` `update_sprite` steps
with `dt = 0` pop every frame (each is due since `play_index < 30000`). -/
theorem reach_drain (n : Nat) : ∀ (a : Nat) (s : Player), PlayerReach s →
    s.time = 1000 → s.buffer = List.range' a n → s.play_index + n < 30000 →
    PlayerReach ⟨[], s.play_index + n, s.load_index, 1000,
                 if n = 0 then s.image else a + n - 1⟩ := by
  induction n with
  | zero =>
      intro a s hs ht hb _
      obtain ⟨b, p, l, t, i⟩ := s
      dsimp only at ht hb ⊢
      rw [List.range'_zero] at hb
      subst ht; subst hb
      simpa using hs
  | succ n ih =>
      intro a s hs ht hb hp
      obtain ⟨b, p, l, t, i⟩ := s
      dsimp only at ht hb hp ⊢
      subst ht
      rw [List.range'_succ] at hb
      subst hb
      have hpop : update_sprite 0 ⟨a :: List.range' (a + 1) n, p, l, 1000, i⟩ =
          ⟨List.range' (a + 1) n, p + 1, l, 1000 + 0, a⟩ :=
        update_sprite_pop 0 _ a _ rfl
          (by show p < current_idx_of ((1000 : ℚ) + 0)
              rw [current_idx_of_1000_add_zero]
              omega)
      have hs1 : PlayerReach (⟨List.range' (a + 1) n, p + 1, l, 1000 + 0, a⟩ : Player) := by
        rw [← hpop]
        exact hs.step (PlayerStep.update _ 0 le_rfl)
      have hres := ih (a + 1) ⟨List.range' (a + 1) n, p + 1, l, 1000 + 0, a⟩ hs1
        (by norm_num) rfl (by dsimp only; omega)
      dsimp only at hres
      have heq : (⟨[], p + 1 + n, l, 1000, if n = 0 then a else a + 1 + n - 1⟩ : Player) =
          ⟨[], p + (n + 1), l, 1000, if n + 1 = 0 then i else a + (n + 1) - 1⟩ := by
        refine Player.ext rfl (by dsimp only; omega) rfl rfl ?_
        dsimp only
        rw [if_neg (Nat.succ_ne_zero n)]
        by_cases hn : n = 0
        · subst hn; simp
        · rw [if_neg hn]; omega
      rw [← heq]
      exact hres

/-- One full refill-drain cycle from an empty queue: `load_frames` enqueues the
next `PREFETCH_DEPTH` frames, then `PREFETCH_DEPTH` display steps pop them all. -/
theorem reach_cycle (p i : Nat) (h1 : p + 1 < FRAMES) (h2 : p + 257 < 30000)
    (hs : PlayerReach ⟨[], p, p + 1, 1000, i⟩) :
    PlayerReach ⟨[], p + 256, p + 257, 1000, p + 256⟩ := by
  have hload : load_frames (⟨[], p, p + 1, 1000, i⟩ : Player) =
      ⟨List.range' (p + 1) 256, p, p + 257, 1000, i⟩ := by
    rw [load_frames_eq]
    rw [if_neg (by show ¬ FRAMES ≤ p + 1; omega)]
    refine Player.ext ?_ rfl ?_ rfl rfl
    · dsimp only
      simp [PREFETCH_DEPTH]
    · dsimp only
      simp only [List.length_nil, PREFETCH_DEPTH]
  have hs1 : PlayerReach (⟨List.range' (p + 1) 256, p, p + 257, 1000, i⟩ : Player) := by
    rw [← hload]
    exact hs.step (PlayerStep.load _)
  have hres := reach_drain 256 (p + 1) _ hs1 rfl rfl (by dsimp only; omega)
  dsimp only at hres
  have heq : (⟨[], p + 256, p + 257, 1000,
      if 256 = 0 then i else p + 1 + 256 - 1⟩ : Player) =
      ⟨[], p + 256, p + 257, 1000, p + 256⟩ := by
    refine Player.ext rfl rfl rfl rfl ?_
    dsimp only
    rw [if_neg (by norm_num : ¬(256 = 0))]
    omega
  rw [heq] at hres
  exact hres

/-- Iterated cycles: starting from an empty queue with `play_index = p`, `k`
refill-drain cycles advance `play_index` and `load_index` by `256 * k`. -/
theorem reach_cycles (k : Nat) : ∀ (p i : Nat), p + 256 * k ≤ 6400 →
    PlayerReach ⟨[], p, p + 1, 1000, i⟩ →
    PlayerReach ⟨[], p + 256 * k, p + 256 * k + 1, 1000,
                 if k = 0 then i else p + 256 * k⟩ := by
  induction k with
  | zero =>
      intro p i _ hs
      simpa using hs
  | succ k ih =>
      intro p i hb hs
      have hc : PlayerReach ⟨[], p + 256, p + 257, 1000, p + 256⟩ := by
        refine reach_cycle p i ?_ ?_ hs
        · show p + 1 < FRAMES
          unfold FRAMES
          omega
        · omega
      have hstep : PlayerReach ⟨[], p + 256, p + 256 + 1, 1000, p + 256⟩ := by
        have h257 : p + 257 = p + 256 + 1 := by omega
        rwa [h257] at hc
      have := ih (p + 256) (p + 256) (by omega) hstep
      have heq : (⟨[], p + 256 + 256 * k, p + 256 + 256 * k + 1, 1000,
          if k = 0 then p + 256 else p + 256 + 256 * k⟩ : Player) =
          ⟨[], p + 256 * (k + 1), p + 256 * (k + 1) + 1, 1000,
           if k + 1 = 0 then i else p + 256 * (k + 1)⟩ := by
        refine Player.ext rfl (by dsimp only; ring) (by dsimp only; ring) rfl ?_
        dsimp only
        rw [if_neg (Nat.succ_ne_zero k)]
        by_cases hk : k = 0
        · subst hk; norm_num
        · rw [if_neg hk]; ring
      rw [heq] at this
      exact this

/-- The concrete reachable state that falsifies the claimed invariant: its
`load_index` is `6657 = FRAME_COUNT + 85`, and the handle for frame `6572`
(`= FRAME_COUNT`, past the end of the stream) sits in the queue. -/
def overflowState : Player :=
  ⟨List.range' 6401 256, 6400, 6657, 1000, 6400⟩

/-- The overflow state is reachable: one long tick, then 25 refill-drain
cycles (`play_index` climbs to `6400`, `load_index` to `6401`), then one more
refill that pushes `256` further handles without ever re-checking `FRAMES`. -/
theorem reach_overflowState : PlayerReach overflowState := by
  have h0 : update_sprite 1000 startupPlayer = ⟨[], 0, 1, 1000, 0⟩ := by
    rw [update_sprite_nil 1000 startupPlayer rfl]
    refine Player.ext rfl rfl rfl ?_ rfl
    show (0 : ℚ) + 1000 = 1000
    norm_num
  have hs0 : PlayerReach (⟨[], 0, 1, 1000, 0⟩ : Player) := by
    rw [← h0]
    exact PlayerReach.init.step (PlayerStep.update _ 1000 (by norm_num))
  have hcy := reach_cycles 25 0 0 (by norm_num) (by simpa using hs0)
  norm_num at hcy
  have hload : load_frames (⟨[], 6400, 6401, 1000, 6400⟩ : Player) = overflowState := by
    rw [load_frames_eq]
    rw [if_neg (by show ¬ FRAMES ≤ 6401; decide)]
    unfold overflowState
    refine Player.ext ?_ rfl ?_ rfl rfl
    · dsimp only
      simp [PREFETCH_DEPTH]
    · dsimp only
      simp only [List.length_nil, PREFETCH_DEPTH]
  rw [← hload]
  exact hcy.step (PlayerStep.load _)

set_option maxRecDepth 40000 in
/-- C1: REFUTED AS STATED (code bug). The refill loop in `load_frames` never
re-checks `load_index < FRAMES`, so from the startup state a legal interleaving
of refill and display steps reaches a state whose `load_index = 6657` exceeds
`FRAME_COUNT = 6572`, and the frame index `6572 = FRAME_COUNT` (past the end
of the stream) has been requested (its handle sits in the queue). -/
theorem C1_load_index_overflows :
    PlayerReach overflowState ∧
    FRAMES < overflowState.load_index ∧
    FRAMES ∈ overflowState.buffer :=
  ⟨reach_overflowState, by decide, by decide⟩

/-- C6: the pending queue never exceeds `PREFETCH_DEPTH = 256` entries in any
reachable state, a refill from a full queue enqueues nothing, and once
`load_index` has reached `FRAMES`, `load_frames` is a no-op. -/
theorem C6_bounded_prefetch (s : Player) (h : PlayerReach s) :
    s.buffer.length ≤ PREFETCH_DEPTH ∧
    (load_frames s).buffer.length ≤ PREFETCH_DEPTH ∧
    (PREFETCH_DEPTH ≤ s.buffer.length → load_frames s = s) ∧
    (FRAMES ≤ s.load_index → load_frames s = s) := by
  have hinv := playerInv_reach s h
  obtain ⟨h1, h2, h3⟩ := hinv
  have hfull : PREFETCH_DEPTH ≤ s.buffer.length → load_frames s = s := by
    intro hge
    rw [load_frames_eq]
    split
    · rfl
    · have h0 : PREFETCH_DEPTH - s.buffer.length = 0 := by omega
      rw [h0]
      simp
  refine ⟨h2, ?_, hfull, ?_⟩
  · rw [load_frames_eq]
    split
    · exact h2
    · simp only [List.length_append, List.length_range']
      omega
  · intro hge
    rw [load_frames_eq, if_pos hge]

set_option maxRecDepth 40000 in
/-- Witness for C6 at the reachable overflow state, whose queue is full and
whose `load_index` is past `FRAMES`: both no-op conditions fire. -/
theorem C6_bounded_prefetch_witness :
    overflowState.buffer.length ≤ PREFETCH_DEPTH ∧
    (load_frames overflowState).buffer.length ≤ PREFETCH_DEPTH ∧
    load_frames overflowState = overflowState ∧
    FRAMES ≤ overflowState.load_index :=
  ⟨(C6_bounded_prefetch overflowState reach_overflowState).1,
   (C6_bounded_prefetch overflowState reach_overflowState).2.1,
   (C6_bounded_prefetch overflowState reach_overflowState).2.2.2 (by decide),
   by decide⟩

/-! ## Particle field (`move_particle`, `color_particle`) -/

/-- A decoded raster image as seen by `move_particle`: the texture size from
`texture_descriptor.size`, the pixel format's `block_size`, and the raw byte
buffer `image.data`, modelled as a total function from byte offsets to byte
values. -/
structure Image where
  width : Nat
  height : Nat
  block_size : Nat
  data : Nat → Nat

/-- A particle: the transform's translation `(x, y)` (the `z` component is
constant and irrelevant) together with the `Particle(usize)` component holding
the `play_index` at which the particle last stood on a dark pixel. -/
@[ext]
structure Particle where
  x : ℚ
  y : ℚ
  standstill : Nat
  deriving Repr

/-- Rust's `f32 as u32` saturating cast, truncating toward zero: negative
values go to `0` (floats are modelled as rationals; the `u32::MAX` saturation
is unreachable in this program's domain). -/
def toU32 (q : ℚ) : Nat := (⌊q⌋).toNat

/-- The pixel address computed in `move_particle`:
`pos = translation + (240, 180)` cast to `u32`, row flipped by
`(HEIGHT-1).saturating_sub(pos.y)` (ℕ-subtraction is saturating), then
`pos.y.clamp(0, HEIGHT-1) * WIDTH + pos.x.clamp(0, WIDTH-1)` (the lower clamp
at `0` is trivial on `ℕ`). -/
def pixel_index (x y : ℚ) : Nat :=
  min ((HEIGHT - 1) - toU32 (y + 180)) (HEIGHT - 1) * WIDTH +
    min (toU32 (x + 240)) (WIDTH - 1)

/-- `image.data[idx as usize * block_size as usize]` — the sampled intensity
(first channel of the stored pixel). -/
def sample (img : Image) (x y : ℚ) : Nat :=
  img.data (pixel_index x y * img.block_size)

/-- First wrap `if`: `if translation.x < -240.0 { translation.x = 240.0 }`. -/
def wrap_lo_x (x : ℚ) : ℚ := if x < -240 then 240 else x

/-- Second wrap `if`, applied to the result of the first:
`if translation.x >= 240.0 { translation.x = -240.0 }`. -/
def wrap_x (x : ℚ) : ℚ := if wrap_lo_x x ≥ 240 then -240 else wrap_lo_x x

/-- `if translation.y < -180.0 { translation.y = 180.0 }`. -/
def wrap_lo_y (y : ℚ) : ℚ := if y < -180 then 180 else y

/-- `if translation.y >= 180.0 { translation.y = -180.0 }`, applied second. -/
def wrap_y (y : ℚ) : ℚ := if wrap_lo_y y ≥ 180 then -180 else wrap_lo_y y

/-- The four sequential wrap `if`s at the end of the per-particle closure. -/
def wrap_particle (p : Particle) : Particle :=
  { p with x := wrap_x p.x, y := wrap_y p.y }

/-- The per-particle body of `move_particle`'s `for_each` closure: sample the
intensity at the mapped pixel; if it exceeds `128`, add the random offsets
`o = (gen_range(-5..=5), gen_range(-5..=5))` to the position, otherwise record
`play_index` in the `Particle` component; finally apply the wrap `if`s. -/
def move_particle_one (img : Image) (play_index : Nat) (o : ℤ × ℤ) (p : Particle) :
    Particle :=
  wrap_particle
    (if 128 < sample img p.x p.y then
      { p with x := p.x + (o.1 : ℚ), y := p.y + (o.2 : ℚ) }
    else
      { p with standstill := play_index })

/-- The `for_each` over all particles; `off i` is the pair of random offsets
the thread-local RNG yields for the `i`-th particle. -/
def move_each (img : Image) (play_index : Nat) (off : Nat → ℤ × ℤ) :
    Nat → List Particle → List Particle
  | _, [] => []
  | i, p :: rest =>
      move_particle_one img play_index (off i) p ::
        move_each img play_index off (i + 1) rest

/-- The `move_particle` system: `images.get` may fail (`none`), and mismatched
texture dimensions short-circuit the whole tick. -/
def move_particle (img? : Option Image) (play_index : Nat) (off : Nat → ℤ × ℤ)
    (ps : List Particle) : List Particle :=
  match img? with
  | none => ps
  | some img =>
      if img.width ≠ WIDTH then ps
      else if img.height ≠ HEIGHT then ps
      else move_each img play_index off 0 ps

/-- Closed form of the two sequential wrap `if`s on the x-axis: any value
below `-240` first becomes `240`, which the second `if` (`≥ 240`) immediately
sends to `-240`. -/
theorem wrap_x_eq (x : ℚ) :
    wrap_x x = if x < -240 then -240 else if 240 ≤ x then -240 else x := by
  unfold wrap_x wrap_lo_x
  split_ifs <;> first | rfl | linarith

/-- Closed form of the y-axis wrap, symmetric to `wrap_x_eq`. -/
theorem wrap_y_eq (y : ℚ) :
    wrap_y y = if y < -180 then -180 else if 180 ≤ y then -180 else y := by
  unfold wrap_y wrap_lo_y
  split_ifs <;> first | rfl | linarith

theorem wrap_x_id (x : ℚ) (h1 : -240 ≤ x) (h2 : x < 240) : wrap_x x = x := by
  rw [wrap_x_eq, if_neg (by linarith), if_neg (by linarith)]

theorem wrap_y_id (y : ℚ) (h1 : -180 ≤ y) (h2 : y < 180) : wrap_y y = y := by
  rw [wrap_y_eq, if_neg (by linarith), if_neg (by linarith)]

/-- An all-white frame (every byte `255`) and an all-black frame (every byte
`0`), both of the expected `480 × 360` size. -/
def brightImage : Image := ⟨480, 360, 1, fun _ => 255⟩

def darkImage : Image := ⟨480, 360, 1, fun _ => 0⟩

/-- C2: REFUTED AS STATED (code bug). The two wrap `if`s run sequentially, so
a post-step `x < -240` is first set to `240`, which the second `if` then sends
to `-240`: the code clamps the lower edge to `-240` instead of teleporting to
`+240`. Concretely, a particle at `x = -238` on a bright pixel stepping by
`-5` ends at `x = -240`, not the claimed `+240`. -/
theorem C2_lower_wrap_is_dead_store :
    128 < sample brightImage (-238) 0 ∧
    (-238 : ℚ) + ((-5 : ℤ) : ℚ) < -240 ∧
    (move_particle_one brightImage 0 (-5, 0) ⟨-238, 0, 0⟩).x = -240 ∧
    (move_particle_one brightImage 0 (-5, 0) ⟨-238, 0, 0⟩).x ≠ 240 := by
  refine ⟨by decide, by norm_num, ?_, ?_⟩ <;>
    norm_num [move_particle_one, wrap_particle, sample, brightImage,
      wrap_x_eq, wrap_y_eq]

/-- C3: REFUTED AS STATED. The post-wrap value for `x ≥ W/2` is the constant
`-W/2 = -240`, not `x - W`: at `x = 244` the code yields `-240` whereas the
claimed law demands `244 - 480 = -236`. -/
theorem C3_wrap_law_counterexample :
    wrap_x 244 = -240 ∧ (244 : ℚ) - 480 = -236 ∧ ((-240 : ℚ) ≠ -236) := by
  refine ⟨?_, by norm_num, by norm_num⟩
  rw [wrap_x_eq]
  norm_num

/-- C3 amended: an update producing `x ≥ W/2` wraps to exactly `-W/2`; an
update producing `x < -W/2` also wraps to `-W/2` (the `+W/2` assignment is
immediately overwritten by the second `if`); the post-wrap value always lies
in `[-W/2, W/2)`; symmetrically for `y` with `H/2 = 180`. -/
theorem C3_wrap_clamps (x y : ℚ) :
    (240 ≤ x → wrap_x x = -240) ∧
    (x < -240 → wrap_x x = -240) ∧
    (-240 ≤ wrap_x x ∧ wrap_x x < 240) ∧
    (180 ≤ y → wrap_y y = -180) ∧
    (y < -180 → wrap_y y = -180) ∧
    (-180 ≤ wrap_y y ∧ wrap_y y < 180) := by
  refine ⟨?_, ?_, ⟨?_, ?_⟩, ?_, ?_, ⟨?_, ?_⟩⟩
  · intro h; rw [wrap_x_eq, if_neg (by linarith), if_pos h]
  · intro h; rw [wrap_x_eq, if_pos h]
  · rw [wrap_x_eq]; split_ifs <;> linarith
  · rw [wrap_x_eq]; split_ifs <;> linarith
  · intro h; rw [wrap_y_eq, if_neg (by linarith), if_pos h]
  · intro h; rw [wrap_y_eq, if_pos h]
  · rw [wrap_y_eq]; split_ifs <;> linarith
  · rw [wrap_y_eq]; split_ifs <;> linarith

/-- Witness for C3's amended wrap laws at `x = 300`, `y = -200`. -/
theorem C3_wrap_clamps_witness :
    wrap_x 300 = -240 ∧ wrap_y (-200) = -180 ∧
    (-240 ≤ wrap_x 300 ∧ wrap_x 300 < 240) :=
  ⟨(C3_wrap_clamps 300 0).1 (by norm_num),
   (C3_wrap_clamps 0 (-200)).2.2.2.2.1 (by norm_num),
   (C3_wrap_clamps 300 0).2.2.1⟩

/-- C4 amended: with an image of the expected dimensions and an in-domain
particle, sampled intensity `≤ 128` leaves the position unchanged and records
the current `play_index`; intensity `> 128` adds the two sampled random
offsets (each drawn from `[-5, 5]`) to the axes and wraps, leaving the
recorded index unchanged. (The claim's "always changes position" is dropped:
the offset pair `(0, 0)` is a possible sample and leaves the position fixed,
see the counterexample.) -/
theorem C4_decision_rule (img : Image) (play : Nat) (o : ℤ × ℤ) (p : Particle)
    (hx1 : -240 ≤ p.x) (hx2 : p.x < 240) (hy1 : -180 ≤ p.y) (hy2 : p.y < 180) :
    (sample img p.x p.y ≤ 128 →
      move_particle_one img play o p = { p with standstill := play }) ∧
    (128 < sample img p.x p.y →
      move_particle_one img play o p =
        { p with x := wrap_x (p.x + (o.1 : ℚ)), y := wrap_y (p.y + (o.2 : ℚ)) }) := by
  constructor
  · intro h
    unfold move_particle_one wrap_particle
    rw [if_neg (by omega)]
    refine Particle.ext ?_ ?_ rfl
    · exact wrap_x_id p.x hx1 hx2
    · exact wrap_y_id p.y hy1 hy2
  · intro h
    unfold move_particle_one wrap_particle
    rw [if_pos h]

/-- Witness for C4 at a dark pixel: the particle at `(1, 2)` freezes and
records `play_index = 9`. -/
theorem C4_decision_rule_witness :
    sample darkImage 1 2 ≤ 128 ∧
    move_particle_one darkImage 9 (3, 4) ⟨1, 2, 0⟩ = ⟨1, 2, 9⟩ := by
  refine ⟨by decide, ?_⟩
  exact (C4_decision_rule darkImage 9 (3, 4) ⟨1, 2, 0⟩ (by norm_num) (by norm_num)
    (by norm_num) (by norm_num)).1 (by decide)

/-- C4: the "always changes position" part is REFUTED: on a bright pixel with
sampled offsets `(0, 0)` — a legal value of `gen_range(-5..=5)` on each axis —
the position is unchanged (and `last_moved_index` keeps its old value `3`). -/
theorem C4_zero_offset_counterexample :
    128 < sample brightImage 0 0 ∧
    (move_particle_one brightImage 7 (0, 0) ⟨0, 0, 3⟩).x = 0 ∧
    (move_particle_one brightImage 7 (0, 0) ⟨0, 0, 3⟩).y = 0 ∧
    (move_particle_one brightImage 7 (0, 0) ⟨0, 0, 3⟩).standstill = 3 := by
  refine ⟨by decide, ?_, ?_, ?_⟩ <;>
    norm_num [move_particle_one, wrap_particle, sample, brightImage,
      wrap_x_eq, wrap_y_eq]

/-- C7: if the displayed frame's dimensions differ from `WIDTH × HEIGHT`, the
whole `move_particle` tick returns the particles unchanged (an early `return`,
before any pixel is read), with no error. -/
theorem C7_dimension_guard (img : Image) (play : Nat) (off : Nat → ℤ × ℤ)
    (ps : List Particle) (h : img.width ≠ WIDTH ∨ img.height ≠ HEIGHT) :
    move_particle (some img) play off ps = ps := by
  simp only [move_particle]
  rcases h with h | h
  · rw [if_pos h]
  · by_cases hw : img.width ≠ WIDTH
    · rw [if_pos hw]
    · rw [if_neg hw, if_pos h]

/-- Witness for C7 with a `481 × 360` frame and one particle. -/
theorem C7_dimension_guard_witness :
    ((⟨481, 360, 1, fun _ => 0⟩ : Image).width ≠ WIDTH ∨
      (⟨481, 360, 1, fun _ => 0⟩ : Image).height ≠ HEIGHT) ∧
    move_particle (some ⟨481, 360, 1, fun _ => 0⟩) 0 (fun _ => (0, 0)) [⟨0, 0, 0⟩] =
      [⟨0, 0, 0⟩] :=
  ⟨Or.inl (by decide),
   C7_dimension_guard ⟨481, 360, 1, fun _ => 0⟩ 0 (fun _ => (0, 0)) [⟨0, 0, 0⟩]
     (Or.inl (by decide))⟩

/-- C5: `update_sprite` computes `current_idx = floor(elapsed / (1/FPS))` from
the ticked stopwatch; when a frame is due (`play_index < current_idx`) and the
queue is non-empty, the front frame is dequeued, installed as the displayed
image and `play_index` is incremented by exactly one; when the queue is empty,
or no frame is due, the displayed image and `play_index` are unchanged. -/
theorem C5_display_advance (s : Player) (dt : ℚ) :
    (s.play_index < current_idx_of (s.time + dt) →
      ∀ f rest, s.buffer = f :: rest →
        update_sprite dt s =
          { s with time := s.time + dt, image := f, buffer := rest,
                   play_index := s.play_index + 1 }) ∧
    (s.buffer = [] →
      (update_sprite dt s).image = s.image ∧
      (update_sprite dt s).play_index = s.play_index ∧
      (update_sprite dt s).buffer = []) ∧
    (¬ s.play_index < current_idx_of (s.time + dt) →
      (update_sprite dt s).image = s.image ∧
      (update_sprite dt s).play_index = s.play_index ∧
      (update_sprite dt s).buffer = s.buffer) := by
  refine ⟨?_, ?_, ?_⟩
  · intro hp f rest hb
    exact update_sprite_pop dt s f rest hb hp
  · intro hb
    rw [update_sprite_nil dt s hb]
    exact ⟨rfl, rfl, hb⟩
  · intro hp
    unfold update_sprite
    rw [if_neg hp]
    exact ⟨rfl, rfl, rfl⟩

/-- Witness for C5: with the stopwatch at `1000` s (so `current_idx = 30000`),
the single queued frame `42` is dequeued and displayed. -/
theorem C5_display_advance_witness :
    (⟨[42], 0, 2, 1000, 7⟩ : Player).play_index <
      current_idx_of ((⟨[42], 0, 2, 1000, 7⟩ : Player).time + 0) ∧
    update_sprite 0 ⟨[42], 0, 2, 1000, 7⟩ = ⟨[], 1, 2, 1000 + 0, 42⟩ := by
  have hp : (⟨[42], 0, 2, 1000, 7⟩ : Player).play_index <
      current_idx_of ((⟨[42], 0, 2, 1000, 7⟩ : Player).time + 0) := by
    show (0 : Nat) < current_idx_of ((1000 : ℚ) + 0)
    rw [current_idx_of_1000_add_zero]
    omega
  exact ⟨hp, (C5_display_advance ⟨[42], 0, 2, 1000, 7⟩ 0).1 hp 42 [] rfl⟩

/-- The `Sprite` color assigned by `color_particle` as an RGB triple of reals:
`diff = player.play_index - standstill.0` (a `usize` subtraction, modelled as
truncated `ℕ` subtraction), `Color::BLACK` when `diff == 0`, otherwise
`Color::rgb(1.0 - (-(diff as f32) / 12.0).exp(), 0.0, 0.0)`. -/
noncomputable def color_particle (play_index standstill : Nat) : ℝ × ℝ × ℝ :=
  if play_index - standstill = 0 then (0, 0, 0)
  else (1 - Real.exp (-((play_index - standstill : Nat) : ℝ) / 12), 0, 0)

/-- C8: with `diff = play_index - last_moved_index`, the color is exactly pure
black for `diff = 0` and otherwise has red channel `1 - exp(-diff/12)` with
green and blue `0`; the red channel is strictly increasing in `diff`. -/
theorem C8_color_law :
    (∀ play last : Nat,
      (play - last = 0 → color_particle play last = (0, 0, 0)) ∧
      (play - last ≠ 0 →
        color_particle play last =
          (1 - Real.exp (-((play - last : Nat) : ℝ) / 12), 0, 0))) ∧
    (∀ d₁ d₂ : Nat, d₁ < d₂ →
      (color_particle d₁ 0).1 < (color_particle d₂ 0).1) := by
  constructor
  · intro play last
    constructor
    · intro h
      unfold color_particle
      rw [if_pos h]
    · intro h
      unfold color_particle
      rw [if_neg h]
  · intro d₁ d₂ hlt
    unfold color_particle
    simp only [Nat.sub_zero]
    have h2 : ¬(d₂ = 0) := by omega
    rw [if_neg h2]
    by_cases h1 : d₁ = 0
    · rw [if_pos h1]
      have : Real.exp (-(d₂ : ℝ) / 12) < 1 := by
        rw [Real.exp_lt_one_iff]
        have : (0 : ℝ) < (d₂ : ℝ) := by exact_mod_cast Nat.pos_of_ne_zero h2
        linarith
      simp only []
      linarith
    · rw [if_neg h1]
      have hc : (d₁ : ℝ) < (d₂ : ℝ) := by exact_mod_cast hlt
      have : Real.exp (-(d₂ : ℝ) / 12) < Real.exp (-(d₁ : ℝ) / 12) := by
        rw [Real.exp_lt_exp]
        linarith
      simp only []
      linarith

/-- Witness for C8: `diff = 3` gives red `1 - exp(-3/12)`, and the red channel
at `diff = 1` exceeds the one at `diff = 0`. -/
theorem C8_color_law_witness :
    (5 : ℕ) - 2 ≠ 0 ∧
    color_particle 5 2 = (1 - Real.exp (-(((5 : ℕ) - (2 : ℕ) : ℕ) : ℝ) / 12), 0, 0) ∧
    (0 : ℕ) < 1 ∧ (color_particle 0 0).1 < (color_particle 1 0).1 := by
  refine ⟨by decide, ?_, by decide, ?_⟩
  · exact (C8_color_law.1 5 2).2 (by decide)
  · exact C8_color_law.2 0 1 (by decide)

/-! ## Playback controller (`State`, `set_state`, `is_playing`, `play_audio`) -/

/-- The `State` resource. -/
inductive State where
  | Paused : State
  | Playing : State
  deriving DecidableEq, Repr

/-- `insert_resource(State::Paused)`: the initial controller state. -/
def initial_state : State := State.Paused

/-- `set_state`: on a space-key release the state flips; otherwise nothing. -/
def set_state (space_released : Bool) (s : State) : State :=
  if space_released then
    match s with
    | State.Playing => State.Paused
    | State.Paused => State.Playing
  else s

/-- `is_playing`, the `run_if` condition gating `update_sprite` and
`move_particle`. -/
def is_playing (s : State) : Bool :=
  match s with
  | State.Playing => true
  | State.Paused => false

/-- The command `play_audio` issues to a resolved audio sink. -/
inductive AudioCmd where
  | play : AudioCmd
  | pause : AudioCmd
  deriving DecidableEq, Repr

/-- `play_audio`: `sink.play()` while `Playing`, `sink.pause()` while
`Paused`. -/
def play_audio (s : State) : AudioCmd :=
  match s with
  | State.Playing => AudioCmd.play
  | State.Paused => AudioCmd.pause

/-- `update_sprite.run_if(is_playing)`: the system body runs only while
`Playing`. -/
def gated_update_sprite (st : State) (dt : ℚ) (s : Player) : Player :=
  if is_playing st then update_sprite dt s else s

/-- `move_particle.run_if(is_playing)`. -/
def gated_move_particle (st : State) (img? : Option Image) (play : Nat)
    (off : Nat → ℤ × ℤ) (ps : List Particle) : List Particle :=
  if is_playing st then move_particle img? play off ps else ps

/-- C9: the controller starts `Paused`; a toggle event always flips the state
(so two toggles restore it); while `Paused` the gated playback-buffer advance
and particle tick are identities (elapsed time, displayed frame, every
position and `last_moved_index` unchanged); the state is mirrored to the audio
sink as `play()` when `Playing` and `pause()` when `Paused`. -/
theorem C9_controller (st : State) (dt : ℚ) (s : Player) (img? : Option Image)
    (play : Nat) (off : Nat → ℤ × ℤ) (ps : List Particle) :
    initial_state = State.Paused ∧
    set_state true st ≠ st ∧
    set_state true (set_state true st) = st ∧
    set_state true State.Paused = State.Playing ∧
    set_state true State.Playing = State.Paused ∧
    gated_update_sprite State.Paused dt s = s ∧
    gated_move_particle State.Paused img? play off ps = ps ∧
    play_audio State.Playing = AudioCmd.play ∧
    play_audio State.Paused = AudioCmd.pause := by
  refine ⟨rfl, ?_, ?_, rfl, rfl, rfl, rfl, rfl, rfl⟩
  · cases st <;> decide
  · cases st <;> rfl

/-- Witness for C9 at the initial state and concrete system inputs. -/
theorem C9_controller_witness :
    initial_state = State.Paused ∧
    set_state true State.Paused ≠ State.Paused ∧
    set_state true (set_state true State.Paused) = State.Paused ∧
    set_state true State.Paused = State.Playing ∧
    set_state true State.Playing = State.Paused ∧
    gated_update_sprite State.Paused 0 startupPlayer = startupPlayer ∧
    gated_move_particle State.Paused none 0 (fun _ => (0, 0)) [] = [] ∧
    play_audio State.Playing = AudioCmd.play ∧
    play_audio State.Paused = AudioCmd.pause :=
  C9_controller State.Paused 0 startupPlayer none 0 (fun _ => (0, 0)) []

/-! ## The whole app as a transition system (for the implicit invariant C10) -/

/-- The mutable state the scheduled systems touch: the controller resource,
the `Player` with its sprite image, and the particle entities. -/
structure SysState where
  controller : State
  player : Player
  particles : List Particle

/-- One scheduler step: any of the registered systems runs (`set_state` with
an arbitrary key event, `load_frames` — not gated —, gated `update_sprite`
with an arbitrary nonnegative frame delta, gated `move_particle` against an
arbitrarily resolved image and RNG draws; `play_audio` reads but writes no
modelled state). -/
inductive SysStep : SysState → SysState → Prop
  | toggle (s : SysState) (b : Bool) :
      SysStep s ⟨set_state b s.controller, s.player, s.particles⟩
  | load (s : SysState) :
      SysStep s ⟨s.controller, load_frames s.player, s.particles⟩
  | update (s : SysState) (dt : ℚ) (h : 0 ≤ dt) :
      SysStep s ⟨s.controller, gated_update_sprite s.controller dt s.player, s.particles⟩
  | move (s : SysState) (img? : Option Image) (off : Nat → ℤ × ℤ) :
      SysStep s ⟨s.controller, s.player,
        gated_move_particle s.controller img? s.player.play_index off s.particles⟩

/-- Reachable system states: `startup` spawns the paused controller, the fresh
`Player`, and `30000` particles all carrying `Particle(0)` (the population
size and positions are irrelevant to the invariant, so any list with
`standstill = 0` is allowed). -/
inductive SysReach : SysState → Prop
  | init (ps : List Particle) (h : ∀ p ∈ ps, p.standstill = 0) :
      SysReach ⟨initial_state, startupPlayer, ps⟩
  | step {s s' : SysState} : SysReach s → SysStep s s' → SysReach s'

/-- `load_frames` never touches `play_index`. -/
theorem load_frames_play_index (s : Player) :
    (load_frames s).play_index = s.play_index := by
  rw [load_frames_eq]
  split <;> rfl

/-- `update_sprite` never decreases `play_index`. -/
theorem update_sprite_play_index_le (dt : ℚ) (s : Player) :
    s.play_index ≤ (update_sprite dt s).play_index := by
  rcases update_sprite_cases dt s with heq | ⟨f, rest, _, _, heq⟩
  · rw [heq]
  · rw [heq]
    dsimp only
    omega

theorem gated_update_sprite_play_index_le (st : State) (dt : ℚ) (s : Player) :
    s.play_index ≤ (gated_update_sprite st dt s).play_index := by
  unfold gated_update_sprite
  split
  · exact update_sprite_play_index_le dt s
  · exact le_rfl

/-- The per-particle step either keeps the recorded index or overwrites it
with the current `play_index`. -/
theorem move_particle_one_standstill (img : Image) (play : Nat) (o : ℤ × ℤ)
    (p : Particle) :
    (move_particle_one img play o p).standstill = p.standstill ∨
    (move_particle_one img play o p).standstill = play := by
  unfold move_particle_one wrap_particle
  split
  · exact Or.inl rfl
  · exact Or.inr rfl

theorem move_each_standstill (img : Image) (play : Nat) (off : Nat → ℤ × ℤ) :
    ∀ (i : Nat) (ps : List Particle) (q : Particle),
      q ∈ move_each img play off i ps →
      ∃ p ∈ ps, q.standstill = p.standstill ∨ q.standstill = play := by
  intro i ps
  induction ps generalizing i with
  | nil =>
      intro q hq
      simp [move_each] at hq
  | cons p rest ih =>
      intro q hq
      simp only [move_each, List.mem_cons] at hq
      rcases hq with h | h
      · refine ⟨p, List.mem_cons_self p rest, ?_⟩
        rw [h]
        exact move_particle_one_standstill img play (off i) p
      · obtain ⟨p', hp', hs⟩ := ih (i + 1) q h
        exact ⟨p', List.mem_cons_of_mem p hp', hs⟩

theorem move_particle_standstill (img? : Option Image) (play : Nat)
    (off : Nat → ℤ × ℤ) (ps : List Particle) (q : Particle)
    (hq : q ∈ move_particle img? play off ps) :
    ∃ p ∈ ps, q.standstill = p.standstill ∨ q.standstill = play := by
  match img? with
  | none => exact ⟨q, hq, Or.inl rfl⟩
  | some img =>
      simp only [move_particle] at hq
      split at hq
      · exact ⟨q, hq, Or.inl rfl⟩
      · split at hq
        · exact ⟨q, hq, Or.inl rfl⟩
        · exact move_each_standstill img play off 0 ps q hq

theorem gated_move_particle_standstill (st : State) (img? : Option Image)
    (play : Nat) (off : Nat → ℤ × ℤ) (ps : List Particle) (q : Particle)
    (hq : q ∈ gated_move_particle st img? play off ps) :
    ∃ p ∈ ps, q.standstill = p.standstill ∨ q.standstill = play := by
  unfold gated_move_particle at hq
  split at hq
  · exact move_particle_standstill img? play off ps q hq
  · exact ⟨q, hq, Or.inl rfl⟩

/-- C10: in every reachable state every particle's recorded
`last_moved_index` is at most the current `play_index` (it starts at `0` and
is only ever overwritten with the then-current `play_index`, which never
decreases), so the `usize` subtraction `play_index - standstill` in
`color_particle` never underflows: it agrees with the subtraction in `ℤ`. -/
theorem C10_standstill_le_play_index (s : SysState) (h : SysReach s) :
    ∀ p ∈ s.particles,
      p.standstill ≤ s.player.play_index ∧
      ((s.player.play_index : ℤ) - (p.standstill : ℤ) =
        ((s.player.play_index - p.standstill : ℕ) : ℤ)) := by
  have key : ∀ p ∈ s.particles, p.standstill ≤ s.player.play_index := by
    induction h with
    | init ps h0 =>
        intro p hp
        rw [h0 p hp]
        exact Nat.zero_le _
    | step _ hstep ih =>
        cases hstep with
        | toggle b => exact ih
        | load =>
            intro p hp
            have := ih p hp
            simpa [load_frames_play_index] using this
        | update dt _ =>
            intro p hp
            exact le_trans (ih p hp) (gated_update_sprite_play_index_le _ dt _)
        | move img? off =>
            intro q hq
            rename_i t _
            obtain ⟨p, hp, hcase⟩ :=
              gated_move_particle_standstill t.controller img? t.player.play_index
                off t.particles q hq
            rcases hcase with hc | hc
            · rw [hc]; exact ih p hp
            · rw [hc]
  intro p hp
  have hk := key p hp
  exact ⟨hk, by omega⟩

/-- Witness for C10 at the startup state with a single particle. -/
theorem C10_standstill_le_play_index_witness :
    (⟨0, 0, 0⟩ : Particle).standstill ≤
      (⟨initial_state, startupPlayer, [⟨0, 0, 0⟩]⟩ : SysState).player.play_index ∧
    (((⟨initial_state, startupPlayer, [⟨0, 0, 0⟩]⟩ : SysState).player.play_index : ℤ) -
        ((⟨0, 0, 0⟩ : Particle).standstill : ℤ) =
      (((⟨initial_state, startupPlayer, [⟨0, 0, 0⟩]⟩ : SysState).player.play_index -
          (⟨0, 0, 0⟩ : Particle).standstill : ℕ) : ℤ)) :=
  C10_standstill_le_play_index ⟨initial_state, startupPlayer, [⟨0, 0, 0⟩]⟩
    (SysReach.init [⟨0, 0, 0⟩] (by simp))
    ⟨0, 0, 0⟩ (List.mem_singleton_self _)

end BadApple
